import Mathlib

/-!
Shallow embedding of the change-set application core of the kvengine shard
module (components/kvengine/src/apply.rs).

Keys are byte strings modelled as `List Nat`; file ids, sizes, sequence
numbers and commit timestamps are `Nat`.  The file store, the table
attributes obtained by opening a file, the per-column-family level limits
and the outcome of each compare-and-swap on a versioned slot are collected
in an environment record `Env`; availability of a file id decides whether
`open`/`prefetch` succeed on it, and the CAS oracle models whether a slot
was concurrently changed (slot 0 is the L0 list, slot `cf + 1` is column
family `cf`).

Effects on the file store are recorded as an explicit action trace:
`prefetch` requests, synchronous removals (`fs.remove` called during the
apply), and removals registered as deferred actions on the reclamation
guard (`g.defer`).  A Rust `panic!`/failed `assert!` is modelled as the
distinguished outcome `panicked`; a propagated `Err` keeps the shard state
reached so far, mirroring that the source mutates slots in place before an
error can surface.
-/

namespace KV

/-! ## Byte-string comparison (Rust `cmp` on byte slices) -/

/-- Lexicographic three-way comparison of byte strings, as Rust's `Ord` on
`&[u8]`. -/
def bytesCmp : List Nat → List Nat → Ordering
  | [], [] => .eq
  | [], _ :: _ => .lt
  | _ :: _, [] => .gt
  | a :: as, b :: bs =>
    if a < b then .lt else if b < a then .gt else bytesCmp as bs

/-- Strict byte-string order: `a < b`. -/
def bytesLt (a b : List Nat) : Bool := bytesCmp a b == .lt

/-- Non-strict byte-string order: `a <= b`. -/
def bytesLe (a b : List Nat) : Bool := !(bytesCmp a b == .gt)

/-! ## Data model -/

/-- Handle to an opened sorted table (`sstable::SSTable`): id, key range and
size, as read from its backing file. -/
structure SSTable where
  id : Nat
  smallest : List Nat
  biggest : List Nat
  size : Nat
deriving DecidableEq, Repr

/-- Handle to an opened level-0 table (`sstable::L0Table`): id, commit
timestamp and size. -/
structure L0Table where
  id : Nat
  commitTs : Nat
  size : Nat
deriving DecidableEq, Repr

/-- One level of one column family: ordered table sequence plus aggregate
size (`LevelHandler`). -/
structure LevelHandler where
  tables : List SSTable
  totalSize : Nat
deriving DecidableEq, Repr

/-- Immutable per-column-family snapshot: one `LevelHandler` per level
(`ShardCF`). -/
structure ShardCF where
  levels : List LevelHandler
deriving DecidableEq, Repr

/-- `pb::SplitStage`. -/
inductive SplitStage where
  | initial
  | preSplit
  | preSplitFlushDone
  | splitFileDone
deriving DecidableEq, Repr

/-- The shard: identity, scalar state, the L0-list slot and one slot per
column family.  `metaSeq` is the applied-sequence counter (`meta_seq`) and
`estimatedSize` the derived size metric. -/
structure Shard where
  id : Nat
  ver : Nat
  metaSeq : Nat
  splitStage : SplitStage
  compacting : Bool
  initialFlushed : Bool
  estimatedSize : Nat
  l0 : List L0Table
  cfs : List ShardCF
deriving DecidableEq, Repr

/-! ## Change-set messages (decoded `kvenginepb` payloads) -/

/-- `pb::TableCreate`: a file id destined for `(cf, level)`. -/
structure TableCreate where
  id : Nat
  cf : Nat
  level : Nat
deriving DecidableEq, Repr

/-- `pb::Flush`: optional new L0 table. -/
structure FlushMsg where
  l0Create : Option Nat
deriving DecidableEq, Repr

/-- `pb::Compaction` descriptor. -/
structure CompactionMsg where
  cf : Nat
  level : Nat
  conflicted : Bool
  tableCreates : List TableCreate
  topDeletes : List Nat
  bottomDeletes : List Nat
deriving DecidableEq, Repr

/-- `pb::SplitFiles` descriptor. -/
structure SplitFilesMsg where
  l0Creates : List Nat
  tableCreates : List TableCreate
  tableDeletes : List Nat
deriving DecidableEq, Repr

/-- `pb::Snapshot` payload: only its referenced file ids matter to the
applier. -/
structure SnapshotMsg where
  l0Creates : List Nat
  tableCreates : List TableCreate
deriving DecidableEq, Repr

/-- `pb::ChangeSet`: shard identity, sequence number, target stage and at
most one payload of each kind. -/
structure ChangeSet where
  shardId : Nat
  shardVer : Nat
  sequence : Nat
  stage : SplitStage
  flush : Option FlushMsg
  compaction : Option CompactionMsg
  splitFiles : Option SplitFilesMsg
  snapshot : Option SnapshotMsg
deriving DecidableEq, Repr

/-! ## Environment -/

/-- External collaborators and concurrency oracle.  `avail` decides whether
a file id can be opened/prefetched; `smallest`, `biggest`, `size` and
`commitTs` are the attributes read when a file is opened; `maxLevels cf`
is `opts.cfs[cf].max_levels`; `casOk slot` tells whether the
compare-and-swap on a versioned slot succeeds (slot 0 is `l0_tbls`,
slot `cf + 1` is `cfs[cf]`). -/
structure Env where
  avail : Nat → Bool
  smallest : Nat → List Nat
  biggest : Nat → List Nat
  size : Nat → Nat
  commitTs : Nat → Nat
  maxLevels : Nat → Nat
  casOk : Nat → Bool

/-- Number of column families of the engine (`NUM_CFS`, a crate constant
outside the excerpt: three column families). -/
def NUM_CFS : Nat := 3

/-- Open a file and wrap it as a sorted-table handle
(`self.fs.open` + `SSTable::new`); availability is checked by the caller. -/
def mkSST (env : Env) (id : Nat) : SSTable :=
  ⟨id, env.smallest id, env.biggest id, env.size id⟩

/-- Open a file and wrap it as an L0-table handle
(`self.fs.open` + `L0Table::new`). -/
def mkL0 (env : Env) (id : Nat) : L0Table :=
  ⟨id, env.commitTs id, env.size id⟩

/-! ## Effects and outcomes -/

/-- An effect on the backing file store, in program order. -/
inductive Action where
  | prefetch (id : Nat)
  | removeNow (id : Nat)
  | removeDeferred (ids : List Nat)
deriving DecidableEq, Repr

/-- `Error` variants reachable from the applier. -/
inductive Err where
  | shardNotFound
  | shardNotMatch
  | wrongSplitStage
  | io (id : Nat)
deriving DecidableEq, Repr

/-- Outcome of a payload handler: success or a propagated error, each with
the shard state reached and the actions performed, or a process abort. -/
inductive HOut where
  | ok (s : Shard) (acts : List Action)
  | err (e : Err) (s : Shard) (acts : List Action)
  | panicked
deriving DecidableEq, Repr

/-- Outcome of `apply_change_set`: on an error before the shard lookup
succeeds the shard component is `none`. -/
inductive Outcome where
  | ok (s : Shard) (acts : List Action)
  | err (e : Err) (s : Option Shard) (acts : List Action)
  | panicked
deriving DecidableEq, Repr

/-- Outcome of `compaction_update_level_handler`, which also threads the
accumulated deletion set (`del_files`, a `HashSet` modelled as a
duplicate-free list). -/
inductive CUL where
  | ok (s : Shard) (delFiles : List Nat)
  | err (e : Err) (s : Shard)
  | panicked
deriving DecidableEq, Repr

/-! ## Set operations on the `HashSet<u64>` of deletable ids -/

/-- `HashSet::insert`. -/
def insertSet (s : List Nat) (x : Nat) : List Nat :=
  if x ∈ s then s else s ++ [x]

/-- `HashSet::remove`: sets hold no duplicates, so removal is a filter. -/
def removeSet (s : List Nat) (x : Nat) : List Nat :=
  s.filter (fun y => y ≠ x)

/-! ## Stable sorting (`Vec::sort_by`) -/

/-- Insert into a sorted list, keeping earlier elements before equal later
ones. -/
def orderedInsertBy (le : α → α → Bool) (a : α) : List α → List α
  | [] => [a]
  | b :: l => if le a b then a :: b :: l else b :: orderedInsertBy le a l

/-- Stable comparison sort, modelling `Vec::sort_by`. -/
def sortBy (le : α → α → Bool) : List α → List α
  | [] => []
  | a :: l => orderedInsertBy le a (sortBy le l)

/-- `sort_by(|a, b| a.smallest().cmp(b.smallest()))`. -/
def sortTables (ts : List SSTable) : List SSTable :=
  sortBy (fun a b => bytesLe a.smallest b.smallest) ts

/-- `sort_by(|a, b| b.commit_ts().cmp(&a.commit_ts()))`: commit timestamp
descending. -/
def sortL0 (ts : List L0Table) : List L0Table :=
  sortBy (fun a b => decide (b.commitTs ≤ a.commitTs)) ts

/-! ## `assert_tables_order` -/

/-- The per-pair check of `assert_tables_order`: the source panics when
`ti.smallest() > ti.biggest() || ti.smallest() >= tj.smallest() ||
ti.biggest() >= tj.biggest()`. -/
def tablePairOk (ti tj : SSTable) : Bool :=
  bytesLe ti.smallest ti.biggest && bytesLt ti.smallest tj.smallest &&
    bytesLt ti.biggest tj.biggest

/-- `assert_tables_order`, as a Bool: `false` means the source panics. -/
def assert_tables_order : List SSTable → Bool
  | t1 :: t2 :: rest => tablePairOk t1 t2 && assert_tables_order (t2 :: rest)
  | _ => true

/-! ## Shard accessors -/

/-- The current snapshot of column family `cf`. -/
def getCf (shard : Shard) (cf : Nat) : ShardCF :=
  shard.cfs.getD cf ⟨[]⟩

/-- The table list of level `level` (1-based) of column family `cf`. -/
def levelTables (shard : Shard) (cf level : Nat) : List SSTable :=
  ((getCf shard cf).levels.getD (level - 1) ⟨[], 0⟩).tables

/-- Modelled from the spec: `refresh_estimated_size` lives in the shard
module, outside the excerpt; per the spec it recomputes the shard's
estimated size from current table totals. -/
def refresh_estimated_size (s : Shard) : Shard :=
  { s with estimatedSize :=
      (s.l0.foldl (fun a t => a + t.size) 0 +
        s.cfs.foldl
          (fun a scf => a + scf.levels.foldl (fun b h => b + h.totalSize) 0) 0) }

/-- Modelled from the spec: `atomic_add_l0_table` lives in the shard module,
outside the excerpt; per the spec it atomically prepends the new table to
the L0 list (most recent first). -/
def atomic_add_l0_table (l0 : List L0Table) (t : L0Table) : List L0Table :=
  t :: l0

/-- Modelled from the spec: `atomic_remove_l0_tables` lives in the shard
module, outside the excerpt; per the spec it shrinks the L0 list by
removing the consumed prefix count. -/
def atomic_remove_l0_tables (l0 : List L0Table) (n : Nat) : List L0Table :=
  l0.drop n

/-- Modelled from the spec: `is_move_down` lives in the `meta` module,
outside the excerpt; per the spec a move-down compaction relocates tables
to the adjacent level without rewriting them, so its creates are exactly
its top-deleted table ids. -/
def is_move_down (comp : CompactionMsg) : Bool :=
  comp.tableCreates.map (fun c => c.id) == comp.topDeletes

/-! ## Flush application -/

/-- Tail of `apply_flush`: set the split stage from the change-set and mark
the initial flush done. -/
def flushFinish (s : Shard) (stage : SplitStage) : Shard :=
  { s with splitStage := stage, initialFlushed := true }

/-- `apply_flush`.  The mem-table side (`atomic_remove_mem_table`) is out of
the modelled state: the spec scopes the mem-table implementation out. -/
def apply_flush (env : Env) (shard : Shard) (fl : FlushMsg)
    (stage : SplitStage) : HOut :=
  match fl.l0Create with
  | some id =>
    if env.avail id then
      .ok (flushFinish
        { shard with l0 := atomic_add_l0_table shard.l0 (mkL0 env id) } stage) []
    else .err (.io id) shard []
  | none => .ok (flushFinish shard stage) []

/-! ## Compaction application -/

/-- `compaction_update_level_handler`: rebuild one level of one column
family from the creates belonging to `cf` plus the old tables not in
`delIds`, and install it via CAS on slot `cf + 1`.  Dropped old-table ids
are added to the accumulated deletion set. -/
def compaction_update_level_handler (env : Env) (shard : Shard)
    (cf level : Nat) (creates : List TableCreate) (delIds : List Nat)
    (delFiles : List Nat) : CUL :=
  let oldScf := getCf shard cf
  let levelIdx := level - 1
  let oldLevel := oldScf.levels.getD levelIdx ⟨[], 0⟩
  let myCreates := creates.filter (fun c => c.cf == cf)
  match myCreates.find? (fun c => !env.avail c.id) with
  | some c => .err (.io c.id) shard
  | none =>
    let createdTbls := myCreates.map (fun c => mkSST env c.id)
    let dropped := oldLevel.tables.filter (fun t => delIds.contains t.id)
    let kept := oldLevel.tables.filter (fun t => !delIds.contains t.id)
    let delFiles' := dropped.foldl (fun s t => insertSet s t.id) delFiles
    if !myCreates.isEmpty || !dropped.isEmpty then
      let newTables := sortTables (createdTbls ++ kept)
      if assert_tables_order newTables then
        if env.casOk (cf + 1) then
          let newLevel : LevelHandler :=
            ⟨newTables, (createdTbls ++ kept).foldl (fun a t => a + t.size) 0⟩
          .ok { shard with
                  cfs := shard.cfs.set cf ⟨oldScf.levels.set levelIdx newLevel⟩ }
            delFiles'
        else .panicked
      else .panicked
    else .ok shard delFiles

/-- The `for cf in 0..NUM_CFS` loop of the level-0 compaction path: update
level 1 of every column family, propagating errors and panics. -/
def updateCfs (env : Env) (comp : CompactionMsg) :
    List Nat → Shard → List Nat → CUL
  | [], shard, delFiles => .ok shard delFiles
  | cf :: rest, shard, delFiles =>
    match compaction_update_level_handler env shard cf 1 comp.tableCreates
        comp.bottomDeletes delFiles with
    | .ok s d => updateCfs env comp rest s d
    | .err e s => .err e s
    | .panicked => .panicked

/-- `remove_dfs_files`: register removal of the collected ids as a deferred
action on the reclamation guard. -/
def remove_dfs_files (delFiles : List Nat) : Action :=
  .removeDeferred delFiles

/-- `apply_compaction`. -/
def apply_compaction (env : Env) (shard : Shard) (comp : CompactionMsg) :
    HOut :=
  if comp.conflicted then
    if is_move_down comp then .ok shard []
    else
      let delFiles := comp.tableCreates.foldl (fun s c => insertSet s c.id) []
      .ok shard [remove_dfs_files delFiles]
  else if comp.level == 0 then
    let delFiles0 :=
      (shard.l0.filter (fun t => comp.topDeletes.contains t.id)).foldl
        (fun s t => insertSet s t.id) []
    match updateCfs env comp (List.range NUM_CFS) shard delFiles0 with
    | .ok s delFiles =>
      .ok { s with
              l0 := atomic_remove_l0_tables s.l0 comp.topDeletes.length }
        [remove_dfs_files delFiles]
    | .err e s => .err e s []
    | .panicked => .panicked
  else
    match compaction_update_level_handler env shard comp.cf (comp.level + 1)
        comp.tableCreates comp.bottomDeletes [] with
    | .ok s1 d1 =>
      match compaction_update_level_handler env s1 comp.cf comp.level []
          comp.topDeletes d1 with
      | .ok s2 d2 =>
        let d3 := comp.tableCreates.foldl (fun s c => removeSet s c.id) d2
        .ok s2 [remove_dfs_files d3]
      | .err e s => .err e s []
      | .panicked => .panicked
    | .err e s => .err e s []
    | .panicked => .panicked

/-! ## Split-files application -/

/-- Route one split-descriptor table create into the freshly allocated
per-cf snapshots (`new_cfs`), accumulating the file size. -/
def splitAddCreate (env : Env) (cfs : List ShardCF) (c : TableCreate) :
    List ShardCF :=
  let scf := cfs.getD c.cf ⟨[]⟩
  let lvlIdx := c.level - 1
  let h := scf.levels.getD lvlIdx ⟨[], 0⟩
  cfs.set c.cf
    ⟨scf.levels.set lvlIdx
      ⟨h.tables ++ [mkSST env c.id], h.totalSize + env.size c.id⟩⟩

/-- Merge the surviving old tables of one level into the new per-cf
snapshot: tables whose id is in the delete set are removed from the file
store immediately (`self.fs.remove`), the rest are carried over; the level
is then sorted by smallest key. -/
def splitMergeLevel (sf : SplitFilesMsg) (oldCf : ShardCF) (newCf : ShardCF)
    (lvl : Nat) : ShardCF × List Action :=
  let oldH := oldCf.levels.getD (lvl - 1) ⟨[], 0⟩
  let removed := oldH.tables.filter (fun t => sf.tableDeletes.contains t.id)
  let kept := oldH.tables.filter (fun t => !sf.tableDeletes.contains t.id)
  let h := newCf.levels.getD (lvl - 1) ⟨[], 0⟩
  (⟨newCf.levels.set (lvl - 1)
      ⟨sortTables (h.tables ++ kept),
        h.totalSize + kept.foldl (fun a t => a + t.size) 0⟩⟩,
    removed.map (fun t => .removeNow t.id))

/-- The `for level in 1..=max_level` loop of split-files per-cf merging. -/
def splitMergeCf (sf : SplitFilesMsg) (oldCf : ShardCF) (newCf : ShardCF)
    (maxLevels : Nat) : ShardCF × List Action :=
  (List.range maxLevels).foldl
    (fun p i =>
      let (cfAcc, acts) := p
      let (cfAcc', a) := splitMergeLevel sf oldCf cfAcc (i + 1)
      (cfAcc', acts ++ a))
    (newCf, [])

/-- One iteration of the per-cf install loop of `apply_split_files`: merge
old survivors into the new snapshot for `cf` and CAS it in; the CAS result
is not inspected. -/
def installSplitStep (env : Env) (sf : SplitFilesMsg) (newCfs : List ShardCF)
    (p : Shard × List Action) (cf : Nat) : Shard × List Action :=
  let (s, acts) := p
  let (merged, a) :=
    splitMergeCf sf (getCf s cf) (newCfs.getD cf ⟨[]⟩) (env.maxLevels cf)
  let s' := if env.casOk (cf + 1) then { s with cfs := s.cfs.set cf merged }
    else s
  (s', acts ++ a)

/-- The per-cf install loop of `apply_split_files` over a list of column
family indices. -/
def installSplitLoop (env : Env) (sf : SplitFilesMsg) (newCfs : List ShardCF) :
    List Nat → Shard × List Action → Shard × List Action
  | [], p => p
  | cf :: rest, p =>
    installSplitLoop env sf newCfs rest (installSplitStep env sf newCfs p cf)

/-- The per-cf install phase of `apply_split_files`, for `cf` in
`0..NUM_CFS`. -/
def installSplitCfs (env : Env) (sf : SplitFilesMsg) (shard : Shard)
    (newCfs : List ShardCF) : Shard × List Action :=
  installSplitLoop env sf newCfs (List.range NUM_CFS) (shard, [])

/-- `apply_split_files`. -/
def apply_split_files (env : Env) (shard : Shard) (sf : SplitFilesMsg)
    (stage : SplitStage) : HOut :=
  if shard.splitStage ≠ SplitStage.preSplitFlushDone then
    .err .wrongSplitStage shard []
  else
    match sf.l0Creates.find? (fun id => !env.avail id) with
    | some id => .err (.io id) shard []
    | none =>
      let created := sf.l0Creates.map (mkL0 env)
      let removedL0 := shard.l0.filter (fun t => sf.tableDeletes.contains t.id)
      let keptL0 := shard.l0.filter (fun t => !sf.tableDeletes.contains t.id)
      let acts0 : List Action := removedL0.map (fun t => .removeNow t.id)
      if env.casOk 0 then
        let shard1 := { shard with l0 := sortL0 (created ++ keptL0) }
        match sf.tableCreates.find? (fun c => !env.avail c.id) with
        | some c => .err (.io c.id) shard1 acts0
        | none =>
          let baseCfs := (List.range NUM_CFS).map
            (fun cf => ShardCF.mk (List.replicate (env.maxLevels cf) ⟨[], 0⟩))
          let newCfs := sf.tableCreates.foldl (splitAddCreate env) baseCfs
          let (shard2, acts1) := installSplitCfs env sf shard1 newCfs
          .ok { shard2 with splitStage := stage } (acts0 ++ acts1)
      else .panicked

/-! ## Pre-load and top-level dispatch -/

/-- The file ids `pre_load_files` collects from a change-set, in source
order; the creates of a move-down compaction are skipped. -/
def pre_load_ids (cs : ChangeSet) : List Nat :=
  (match cs.flush with
   | some fl => match fl.l0Create with | some id => [id] | none => []
   | none => []) ++
  (match cs.compaction with
   | some comp =>
     if is_move_down comp then [] else comp.tableCreates.map (fun c => c.id)
   | none => []) ++
  (match cs.splitFiles with
   | some sf => sf.l0Creates ++ sf.tableCreates.map (fun c => c.id)
   | none => []) ++
  (match cs.snapshot with
   | some sn => sn.l0Creates ++ sn.tableCreates.map (fun c => c.id)
   | none => [])

/-- `pre_load_files`: concurrently prefetch every referenced id and fail
fast on the first unavailable one. -/
def pre_load_files (env : Env) (cs : ChangeSet) : Option Err :=
  match (pre_load_ids cs).find? (fun id => !env.avail id) with
  | some id => some (.io id)
  | none => none

/-- `Engine.get_shard`, over the engine's shard registry. -/
def get_shard (shards : List Shard) (id : Nat) : Option Shard :=
  shards.find? (fun s => s.id == id)

/-- The payload dispatch of `apply_change_set` (its tail once validation
passed and the new sequence was recorded into `shard1`): at most one of
Flush / Compaction / SplitFiles runs, the compacting flag is cleared after
a compaction regardless of its result, and the estimated size is refreshed
on success. -/
def dispatch_payload (env : Env) (shard1 : Shard) (cs : ChangeSet)
    (acts : List Action) : Outcome :=
  match cs.flush with
  | some fl =>
    (match apply_flush env shard1 fl cs.stage with
     | .ok s a => .ok (refresh_estimated_size s) (acts ++ a)
     | .err e s a => .err e (some s) (acts ++ a)
     | .panicked => .panicked)
  | none =>
    match cs.compaction with
    | some comp =>
      (match apply_compaction env shard1 comp with
       | .ok s a =>
         .ok (refresh_estimated_size { s with compacting := false })
           (acts ++ a)
       | .err e s a =>
         .err e (some { s with compacting := false }) (acts ++ a)
       | .panicked => .panicked)
    | none =>
      match cs.splitFiles with
      | some sf =>
        (match apply_split_files env shard1 sf cs.stage with
         | .ok s a => .ok (refresh_estimated_size s) (acts ++ a)
         | .err e s a => .err e (some s) (acts ++ a)
         | .panicked => .panicked)
      | none => .ok (refresh_estimated_size shard1) acts

/-- `apply_change_set`: prefetch, validate shard identity, version and
sequence, record the new sequence, dispatch on the payload kind, and
refresh the estimated size. -/
def apply_change_set (env : Env) (shards : List Shard) (cs : ChangeSet) :
    Outcome :=
  let acts := (pre_load_ids cs).map Action.prefetch
  match pre_load_files env cs with
  | some e => .err e (get_shard shards cs.shardId) acts
  | none =>
    match get_shard shards cs.shardId with
    | none => .err .shardNotFound none acts
    | some shard =>
      if shard.ver ≠ cs.shardVer then .err .shardNotMatch (some shard) acts
      else if cs.sequence ≤ shard.metaSeq then .ok shard acts
      else
        dispatch_payload env { shard with metaSeq := cs.sequence } cs acts

/-! ## List helpers -/

theorem getD_set_self {α : Type _} (l : List α) (n : Nat) (a d : α)
    (h : n < l.length) : (l.set n a).getD n d = a := by
  rw [List.getD_eq_getElem?_getD, List.getElem?_set_self h, Option.getD_some]

theorem getD_set_ne {α : Type _} (l : List α) {m n : Nat} (a d : α)
    (h : m ≠ n) : (l.set m a).getD n d = l.getD n d := by
  rw [List.getD_eq_getElem?_getD, List.getElem?_set_ne h,
    ← List.getD_eq_getElem?_getD]

theorem getD_set {α : Type _} (l : List α) (n : Nat) (a d : α) :
    (l.set n a).getD n d = if n < l.length then a else l.getD n d := by
  split
  · exact getD_set_self l n a d (by assumption)
  · rw [List.set_eq_of_length_le (Nat.le_of_not_lt (by assumption))]

/-! ## Permutation facts about the stable sort -/

theorem perm_orderedInsertBy {α : Type _} (le : α → α → Bool) (a : α)
    (l : List α) : (orderedInsertBy le a l).Perm (a :: l) := by
  induction l with
  | nil => exact List.Perm.refl _
  | cons b t ih =>
    simp only [orderedInsertBy]
    split
    · exact List.Perm.refl _
    · exact (ih.cons b).trans (List.Perm.swap a b t)

theorem perm_sortBy {α : Type _} (le : α → α → Bool) (l : List α) :
    (sortBy le l).Perm l := by
  induction l with
  | nil => exact List.Perm.refl _
  | cons a t ih =>
    simp only [sortBy]
    exact (perm_orderedInsertBy le a (sortBy le t)).trans (ih.cons a)

theorem perm_sortTables (ts : List SSTable) : (sortTables ts).Perm ts :=
  perm_sortBy _ ts

/-! ## Membership facts about the deletion-set operations -/

theorem mem_insertSet_self (s : List Nat) (x : Nat) : x ∈ insertSet s x := by
  unfold insertSet
  split
  · assumption
  · simp

theorem mem_insertSet_of_mem {s : List Nat} {x : Nat} (y : Nat) (h : x ∈ s) :
    x ∈ insertSet s y := by
  unfold insertSet
  split
  · exact h
  · simp [h]

theorem mem_foldl_insertSet_of_start {x : Nat} (l : List TableCreate)
    {s : List Nat} (h : x ∈ s) :
    x ∈ l.foldl (fun s c => insertSet s c.id) s := by
  induction l generalizing s with
  | nil => exact h
  | cons a t ih => exact ih (mem_insertSet_of_mem a.id h)

theorem mem_foldl_insertSet {l : List TableCreate} {c : TableCreate}
    (h : c ∈ l) (s : List Nat) :
    c.id ∈ l.foldl (fun s c => insertSet s c.id) s := by
  induction l generalizing s with
  | nil => cases h
  | cons a t ih =>
    rcases List.mem_cons.mp h with h' | h'
    · subst h'
      exact mem_foldl_insertSet_of_start t (mem_insertSet_self s c.id)
    · exact ih h' _

theorem not_mem_removeSet {s : List Nat} {x : Nat} (y : Nat) (h : x ∉ s) :
    x ∉ removeSet s y :=
  fun hm => h (List.mem_of_mem_filter hm)

theorem not_mem_removeSet_self (s : List Nat) (x : Nat) :
    x ∉ removeSet s x := by
  simp [removeSet]

theorem not_mem_foldl_removeSet_of_start {x : Nat} (l : List TableCreate)
    {s : List Nat} (h : x ∉ s) :
    x ∉ l.foldl (fun s c => removeSet s c.id) s := by
  induction l generalizing s with
  | nil => exact h
  | cons a t ih => exact ih (not_mem_removeSet a.id h)

theorem not_mem_foldl_removeSet {l : List TableCreate} {c : TableCreate}
    (h : c ∈ l) (s : List Nat) :
    c.id ∉ l.foldl (fun s c => removeSet s c.id) s := by
  induction l generalizing s with
  | nil => cases h
  | cons a t ih =>
    rcases List.mem_cons.mp h with h' | h'
    · subst h'
      exact not_mem_foldl_removeSet_of_start t (not_mem_removeSet_self s c.id)
    · exact ih h' _

/-! ## The order assertion as a chain invariant -/

theorem assert_tables_order_chain :
    ∀ {ts : List SSTable}, assert_tables_order ts = true →
      List.Chain' (fun a b => tablePairOk a b = true) ts
  | [], _ => List.chain'_nil
  | [t], _ => List.chain'_singleton t
  | t1 :: t2 :: rest, h => by
    simp only [assert_tables_order, Bool.and_eq_true] at h
    exact List.chain'_cons.mpr ⟨h.1, assert_tables_order_chain h.2⟩

/-! ## Characterisation of `compaction_update_level_handler` -/

theorem cul_err_shard {env : Env} {shard : Shard} {cf level : Nat}
    {creates : List TableCreate} {delIds delFiles : List Nat} {e : Err}
    {s' : Shard}
    (h : compaction_update_level_handler env shard cf level creates delIds
        delFiles = .err e s') :
    s' = shard := by
  simp only [compaction_update_level_handler] at h
  split at h
  · injection h with h1 h2
    exact h2.symm
  · split at h
    · split at h
      · split at h
        · exact CUL.noConfusion h
        · exact CUL.noConfusion h
      · exact CUL.noConfusion h
    · exact CUL.noConfusion h

/-- Every successful run of the level updater either left the shard alone
(nothing to create, nothing to drop) or installed, under a successful CAS,
the sorted union of the cf's creates and the kept old tables. -/
theorem cul_ok_shape {env : Env} {shard : Shard} {cf level : Nat}
    {creates : List TableCreate} {delIds delFiles : List Nat} {s' : Shard}
    {d' : List Nat}
    (h : compaction_update_level_handler env shard cf level creates delIds
        delFiles = .ok s' d') :
    (s' = shard ∧ d' = delFiles ∧
      creates.filter (fun c => c.cf == cf) = [] ∧
      ((getCf shard cf).levels.getD (level - 1) ⟨[], 0⟩).tables.filter
        (fun t => delIds.contains t.id) = []) ∨
    (env.casOk (cf + 1) = true ∧
      ∃ newLevel : LevelHandler,
        newLevel.tables = sortTables
          ((creates.filter (fun c => c.cf == cf)).map (fun c => mkSST env c.id)
            ++ ((getCf shard cf).levels.getD (level - 1) ⟨[], 0⟩).tables.filter
              (fun t => !delIds.contains t.id)) ∧
        assert_tables_order newLevel.tables = true ∧
        s' = { shard with
                cfs := shard.cfs.set cf
                  ⟨(getCf shard cf).levels.set (level - 1) newLevel⟩ }) := by
  simp only [compaction_update_level_handler] at h
  split at h
  · exact CUL.noConfusion h
  · split at h
    · split at h
      · split at h
        · injection h with h1 h2
          refine .inr ⟨by assumption, ⟨_, _⟩, rfl, by assumption, h1.symm⟩
        · exact CUL.noConfusion h
      · exact CUL.noConfusion h
    · injection h with h1 h2
      rename_i hcond
      rw [Bool.not_eq_true, Bool.or_eq_false_iff] at hcond
      refine .inl ⟨h1.symm, h2.symm, ?_, ?_⟩
      · exact List.isEmpty_iff.mp (by simpa using hcond.1)
      · exact List.isEmpty_iff.mp (by simpa using hcond.2)

/-- A successful level update touches only the column-family slots: every
scalar field and the L0 list are unchanged. -/
theorem cul_ok_frame {env : Env} {shard : Shard} {cf level : Nat}
    {creates : List TableCreate} {delIds delFiles : List Nat} {s' : Shard}
    {d' : List Nat}
    (h : compaction_update_level_handler env shard cf level creates delIds
        delFiles = .ok s' d') :
    s' = { shard with cfs := s'.cfs } := by
  rcases cul_ok_shape h with ⟨h1, _, _, _⟩ | ⟨_, nl, _, _, h1⟩ <;> subst h1 <;>
    rfl

theorem cul_ok_cfs_length {env : Env} {shard : Shard} {cf level : Nat}
    {creates : List TableCreate} {delIds delFiles : List Nat} {s' : Shard}
    {d' : List Nat}
    (h : compaction_update_level_handler env shard cf level creates delIds
        delFiles = .ok s' d') :
    s'.cfs.length = shard.cfs.length := by
  rcases cul_ok_shape h with ⟨h1, _, _, _⟩ | ⟨_, nl, _, _, h1⟩ <;> subst h1
  · rfl
  · exact List.length_set ..

theorem cul_ok_getCf_ne {env : Env} {shard : Shard} {cf level : Nat}
    {creates : List TableCreate} {delIds delFiles : List Nat} {s' : Shard}
    {d' : List Nat}
    (h : compaction_update_level_handler env shard cf level creates delIds
        delFiles = .ok s' d') {j : Nat} (hj : j ≠ cf) :
    getCf s' j = getCf shard j := by
  rcases cul_ok_shape h with ⟨h1, _, _, _⟩ | ⟨_, nl, _, _, h1⟩ <;> subst h1
  · rfl
  · simp only [getCf]
    exact getD_set_ne _ _ _ (Ne.symm hj)

theorem cul_ok_levels_length {env : Env} {shard : Shard} {cf level : Nat}
    {creates : List TableCreate} {delIds delFiles : List Nat} {s' : Shard}
    {d' : List Nat}
    (h : compaction_update_level_handler env shard cf level creates delIds
        delFiles = .ok s' d') (j : Nat) :
    (getCf s' j).levels.length = (getCf shard j).levels.length := by
  by_cases hj : j = cf
  · subst hj
    rcases cul_ok_shape h with ⟨h1, _, _, _⟩ | ⟨_, nl, _, _, h1⟩ <;> subst h1
    · rfl
    · simp only [getCf]
      rw [getD_set]
      split
      · exact List.length_set ..
      · rfl
  · rw [cul_ok_getCf_ne h hj]

/-- A successful level update leaves for `(cf, level)` a permutation of the
creates routed to `cf` plus the old tables not marked for deletion. -/
theorem cul_ok_perm {env : Env} {shard : Shard} {cf level : Nat}
    {creates : List TableCreate} {delIds delFiles : List Nat} {s' : Shard}
    {d' : List Nat}
    (h : compaction_update_level_handler env shard cf level creates delIds
        delFiles = .ok s' d')
    (hcf : cf < shard.cfs.length)
    (hlvl : level - 1 < (getCf shard cf).levels.length) :
    (levelTables s' cf level).Perm
      ((creates.filter (fun c => c.cf == cf)).map (fun c => mkSST env c.id) ++
        (levelTables shard cf level).filter
          (fun t => !delIds.contains t.id)) := by
  rcases cul_ok_shape h with ⟨h1, _, hc, hd⟩ | ⟨_, nl, hnl, _, h1⟩
  · rw [h1, hc]
    simp only [List.map_nil, List.nil_append]
    have hall := List.filter_eq_nil_iff.mp hd
    have heq : (levelTables shard cf level).filter
        (fun t => !delIds.contains t.id) = levelTables shard cf level := by
      apply List.filter_eq_self.mpr
      intro a ha
      simpa using hall a ha
    rw [heq]
  · rw [h1]
    have hlvl' : level - 1 < (shard.cfs.getD cf ⟨[]⟩).levels.length := hlvl
    have e1 : levelTables
        { shard with
            cfs := shard.cfs.set cf
              ⟨(getCf shard cf).levels.set (level - 1) nl⟩ } cf level =
        nl.tables := by
      simp only [levelTables, getCf]
      rw [getD_set_self _ _ _ _ hcf]
      dsimp only
      rw [getD_set_self _ _ _ _ hlvl']
    rw [e1, hnl]
    exact perm_sortTables _

/-! ## Facts about the level-0 per-cf update loop -/

theorem updateCfs_ok_frame {env : Env} {comp : CompactionMsg} :
    ∀ {L : List Nat} {s : Shard} {d : List Nat} {s' : Shard} {d' : List Nat},
      updateCfs env comp L s d = .ok s' d' → s' = { s with cfs := s'.cfs }
  | [], s, d, s', d', h => by
    injection h with h1 h2
    rw [← h1]
  | cf :: rest, s, d, s', d', h => by
    simp only [updateCfs] at h
    split at h
    · have h2 := updateCfs_ok_frame h
      rename_i s1 d1 hcul
      rw [h2, cul_ok_frame hcul]
    · exact CUL.noConfusion h
    · exact CUL.noConfusion h

theorem updateCfs_ok_cfs_length {env : Env} {comp : CompactionMsg} :
    ∀ {L : List Nat} {s : Shard} {d : List Nat} {s' : Shard} {d' : List Nat},
      updateCfs env comp L s d = .ok s' d' → s'.cfs.length = s.cfs.length
  | [], s, d, s', d', h => by
    injection h with h1 h2
    rw [← h1]
  | cf :: rest, s, d, s', d', h => by
    simp only [updateCfs] at h
    split at h
    · rename_i s1 d1 hcul
      rw [updateCfs_ok_cfs_length h, cul_ok_cfs_length hcul]
    · exact CUL.noConfusion h
    · exact CUL.noConfusion h

theorem updateCfs_ok_getCf_notmem {env : Env} {comp : CompactionMsg} :
    ∀ {L : List Nat} {s : Shard} {d : List Nat} {s' : Shard} {d' : List Nat},
      updateCfs env comp L s d = .ok s' d' →
        ∀ j, j ∉ L → getCf s' j = getCf s j
  | [], s, d, s', d', h => by
    injection h with h1 h2
    rw [← h1]
    exact fun j _ => rfl
  | cf :: rest, s, d, s', d', h => by
    simp only [updateCfs] at h
    split at h
    · rename_i s1 d1 hcul
      intro j hj
      have hj1 : j ≠ cf := fun he => hj (he ▸ List.mem_cons_self cf rest)
      have hj2 : j ∉ rest := fun he => hj (List.mem_cons_of_mem cf he)
      rw [updateCfs_ok_getCf_notmem h j hj2, cul_ok_getCf_ne hcul hj1]
    · exact CUL.noConfusion h
    · exact CUL.noConfusion h

theorem updateCfs_ok_levels_length {env : Env} {comp : CompactionMsg} :
    ∀ {L : List Nat} {s : Shard} {d : List Nat} {s' : Shard} {d' : List Nat},
      updateCfs env comp L s d = .ok s' d' →
        ∀ j, (getCf s' j).levels.length = (getCf s j).levels.length
  | [], s, d, s', d', h => by
    injection h with h1 h2
    rw [← h1]
    exact fun j => rfl
  | cf :: rest, s, d, s', d', h => by
    simp only [updateCfs] at h
    split at h
    · rename_i s1 d1 hcul
      intro j
      rw [updateCfs_ok_levels_length h j, cul_ok_levels_length hcul j]
    · exact CUL.noConfusion h
    · exact CUL.noConfusion h

/-- After a successful run of the per-cf loop, every visited column family's
level 1 is a permutation of its routed creates plus its kept old tables. -/
theorem updateCfs_ok_perm {env : Env} {comp : CompactionMsg} :
    ∀ {L : List Nat} {s : Shard} {d : List Nat} {s' : Shard} {d' : List Nat},
      L.Nodup → updateCfs env comp L s d = .ok s' d' →
        ∀ cf ∈ L, cf < s.cfs.length → 0 < (getCf s cf).levels.length →
          (levelTables s' cf 1).Perm
            ((comp.tableCreates.filter (fun c => c.cf == cf)).map
                (fun c => mkSST env c.id) ++
              (levelTables s cf 1).filter
                (fun t => !comp.bottomDeletes.contains t.id))
  | [], s, d, s', d', _, h => by
    intro cf hcf
    cases hcf
  | c :: rest, s, d, s', d', hnd, h => by
    simp only [updateCfs] at h
    split at h
    · rename_i s1 d1 hcul
      intro cf hcf hlen hlvl
      rcases List.mem_cons.mp hcf with he | he
      · subst he
        have hperm := cul_ok_perm hcul hlen hlvl
        have hframe := updateCfs_ok_getCf_notmem h cf
          (List.nodup_cons.mp hnd).1
        have : levelTables s' cf 1 = levelTables s1 cf 1 := by
          simp only [levelTables, hframe]
        rw [this]
        exact hperm
      · have hne : cf ≠ c := fun heq =>
          (List.nodup_cons.mp hnd).1 (heq ▸ he)
        have hcfs1 : getCf s1 cf = getCf s cf := cul_ok_getCf_ne hcul hne
        have hlen1 : cf < s1.cfs.length := by
          rw [cul_ok_cfs_length hcul]
          exact hlen
        have hlvl1 : 0 < (getCf s1 cf).levels.length := by
          rw [hcfs1]
          exact hlvl
        have ih := updateCfs_ok_perm (List.nodup_cons.mp hnd).2 h cf he
          hlen1 hlvl1
        have : levelTables s1 cf 1 = levelTables s cf 1 := by
          simp only [levelTables, hcfs1]
        rw [this] at ih
        exact ih
    · exact CUL.noConfusion h
    · exact CUL.noConfusion h

/-! ## Branch shapes of `apply_compaction` -/

theorem apply_compaction_l0_shape {env : Env} {shard : Shard}
    {comp : CompactionMsg} {s' : Shard} {acts : List Action}
    (hc : comp.conflicted = false) (hl : comp.level = 0)
    (h : apply_compaction env shard comp = .ok s' acts) :
    ∃ s1 d, updateCfs env comp (List.range NUM_CFS) shard
        ((shard.l0.filter (fun t => comp.topDeletes.contains t.id)).foldl
          (fun s t => insertSet s t.id) []) = .ok s1 d ∧
      s' = { s1 with
              l0 := atomic_remove_l0_tables s1.l0 comp.topDeletes.length } ∧
      acts = [remove_dfs_files d] := by
  simp only [apply_compaction, hc, hl, if_false, Nat.zero_eq, beq_self_eq_true,
    if_true, Bool.false_eq_true, reduceIte] at h
  split at h
  · rename_i s1 d1 hup
    injection h with h1 h2
    exact ⟨s1, d1, hup, h1.symm, h2.symm⟩
  · exact HOut.noConfusion h
  · exact HOut.noConfusion h

theorem apply_compaction_ln_shape {env : Env} {shard : Shard}
    {comp : CompactionMsg} {s' : Shard} {acts : List Action}
    (hc : comp.conflicted = false) (hl : comp.level ≠ 0)
    (h : apply_compaction env shard comp = .ok s' acts) :
    ∃ d2, acts =
      [remove_dfs_files
        (comp.tableCreates.foldl (fun s c => removeSet s c.id) d2)] := by
  have hl' : (comp.level == 0) = false := by
    simpa using hl
  simp only [apply_compaction, hc, hl', Bool.false_eq_true, reduceIte] at h
  split at h
  · split at h
    · rename_i s2 d2 hcul2
      injection h with h1 h2
      exact ⟨d2, h2.symm⟩
    · exact HOut.noConfusion h
    · exact HOut.noConfusion h
  · exact HOut.noConfusion h
  · exact HOut.noConfusion h

/-! ## Top-level dispatch lemma -/

/-- Once pre-load, shard lookup, version check and sequence check pass, the
applier records the new sequence and dispatches on the payload. -/
theorem apply_change_set_validated {env : Env} {shards : List Shard}
    {cs : ChangeSet} {shard : Shard}
    (hpre : pre_load_files env cs = none)
    (hget : get_shard shards cs.shardId = some shard)
    (hver : shard.ver = cs.shardVer)
    (hseq : shard.metaSeq < cs.sequence) :
    apply_change_set env shards cs =
      dispatch_payload env { shard with metaSeq := cs.sequence } cs
        ((pre_load_ids cs).map Action.prefetch) := by
  simp only [apply_change_set, hpre, hget]
  rw [if_neg (fun hne => hne hver), if_neg (Nat.not_le.mpr hseq)]

/-! ## Facts about split-files application -/

theorem apply_split_files_wrong_stage {env : Env} {shard : Shard}
    {sf : SplitFilesMsg} {stage : SplitStage}
    (h : shard.splitStage ≠ SplitStage.preSplitFlushDone) :
    apply_split_files env shard sf stage = .err .wrongSplitStage shard [] := by
  simp only [apply_split_files, if_pos h]

/-- A slot whose CAS fails is never overwritten by the per-cf install loop. -/
theorem installSplitLoop_getCf_casFail {env : Env} {sf : SplitFilesMsg}
    {newCfs : List ShardCF} {c : Nat} (hcas : env.casOk (c + 1) = false) :
    ∀ (L : List Nat) (p : Shard × List Action),
      getCf (installSplitLoop env sf newCfs L p).1 c = getCf p.1 c
  | [], p => rfl
  | cf :: rest, p => by
    obtain ⟨s, acts⟩ := p
    simp only [installSplitLoop]
    rw [installSplitLoop_getCf_casFail hcas rest _]
    simp only [installSplitStep]
    by_cases hc : env.casOk (cf + 1) = true
    · by_cases hcf : cf = c
      · subst hcf
        rw [hcas] at hc
        exact absurd hc (by simp)
      · simp only [hc, if_true, getCf]
        exact getD_set_ne _ _ _ hcf
    · simp only [Bool.not_eq_true] at hc
      simp [hc]

/-- A successful split-files application ends in the state produced by the
install loop with the split stage advanced; the loop starts from the shard
with only the L0 slot replaced. -/
theorem apply_split_files_ok_shape {env : Env} {shard : Shard}
    {sf : SplitFilesMsg} {stage : SplitStage} {s' : Shard}
    {acts : List Action}
    (h : apply_split_files env shard sf stage = .ok s' acts) :
    ∃ newCfs,
      s' = { (installSplitCfs env sf
                { shard with
                    l0 := sortL0 (sf.l0Creates.map (mkL0 env) ++
                      shard.l0.filter
                        (fun t => !sf.tableDeletes.contains t.id)) }
                newCfs).1 with splitStage := stage } := by
  simp only [apply_split_files] at h
  split at h
  · exact HOut.noConfusion h
  · split at h
    · exact HOut.noConfusion h
    · split at h
      · split at h
        · exact HOut.noConfusion h
        · injection h with h1 h2
          exact ⟨_, h1.symm⟩
      · exact HOut.noConfusion h

/-! ## Scalar frame facts for compaction -/

theorem shard_frame_scalars {s s' : Shard}
    (h : s' = { s with cfs := s'.cfs }) :
    s'.metaSeq = s.metaSeq ∧ s'.compacting = s.compacting := by
  constructor <;> rw [h]

theorem updateCfs_err_frame {env : Env} {comp : CompactionMsg} :
    ∀ {L : List Nat} {s : Shard} {d : List Nat} {e : Err} {s' : Shard},
      updateCfs env comp L s d = .err e s' → s' = { s with cfs := s'.cfs }
  | [], s, d, e, s', h => CUL.noConfusion h
  | cf :: rest, s, d, e, s', h => by
    simp only [updateCfs] at h
    split at h
    · rename_i s1 d1 hcul
      rw [updateCfs_err_frame h, cul_ok_frame hcul]
    · rename_i e1 serr hcul
      injection h with h1 h2
      rw [← h2, cul_err_shard hcul]
    · exact CUL.noConfusion h

theorem apply_compaction_ok_scalars {env : Env} {shard : Shard}
    {comp : CompactionMsg} {s' : Shard} {acts : List Action}
    (h : apply_compaction env shard comp = .ok s' acts) :
    s'.metaSeq = shard.metaSeq ∧ s'.compacting = shard.compacting := by
  simp only [apply_compaction] at h
  split at h
  · split at h <;> (injection h with h1 h2; rw [← h1]; exact ⟨rfl, rfl⟩)
  · split at h
    · split at h
      · rename_i s1 d1 hup
        injection h with h1 h2
        have hf := shard_frame_scalars (updateCfs_ok_frame hup)
        rw [← h1]
        exact hf
      · exact HOut.noConfusion h
      · exact HOut.noConfusion h
    · split at h
      · rename_i s1 d1 hcul1
        split at h
        · rename_i s2 d2 hcul2
          injection h with h1 h2
          have hf1 := shard_frame_scalars (cul_ok_frame hcul1)
          have hf2 := shard_frame_scalars (cul_ok_frame hcul2)
          rw [← h1]
          exact ⟨hf2.1.trans hf1.1, hf2.2.trans hf1.2⟩
        · exact HOut.noConfusion h
        · exact HOut.noConfusion h
      · exact HOut.noConfusion h
      · exact HOut.noConfusion h

theorem apply_compaction_err_scalars {env : Env} {shard : Shard}
    {comp : CompactionMsg} {e : Err} {s' : Shard} {acts : List Action}
    (h : apply_compaction env shard comp = .err e s' acts) :
    s'.metaSeq = shard.metaSeq ∧ s'.compacting = shard.compacting := by
  simp only [apply_compaction] at h
  split at h
  · split at h <;> exact HOut.noConfusion h
  · split at h
    · split at h
      · exact HOut.noConfusion h
      · rename_i e1 s1 hup
        injection h with h1 h2
        rw [← h2]
        exact shard_frame_scalars (updateCfs_err_frame hup)
      · exact HOut.noConfusion h
    · split at h
      · rename_i s1 d1 hcul1
        split at h
        · exact HOut.noConfusion h
        · rename_i e2 s2 hcul2
          injection h with h1 h2
          have hf1 := shard_frame_scalars (cul_ok_frame hcul1)
          rw [← h2, cul_err_shard hcul2]
          exact hf1
        · exact HOut.noConfusion h
      · rename_i e1 s1 hcul1
        injection h with h1 h2
        rw [← h2, cul_err_shard hcul1]
        exact ⟨rfl, rfl⟩
      · exact HOut.noConfusion h

/-! ## Concrete inputs for witnesses and counterexamples -/

/-- A file-store environment for concrete runs: every file is available,
file `id` covers the key range `[id] .. [id, 255]`, every CAS succeeds and
every column family has two levels. -/
def wEnv : Env where
  avail := fun _ => true
  smallest := fun id => [id]
  biggest := fun id => [id, 255]
  size := fun _ => 10
  commitTs := fun id => id
  maxLevels := fun _ => 2
  casOk := fun _ => true

/-- An empty two-level column-family snapshot. -/
def emptyCf2 : ShardCF := ⟨[⟨[], 0⟩, ⟨[], 0⟩]⟩

/-- A small shard with three empty column families. -/
def wShardBase : Shard where
  id := 1
  ver := 1
  metaSeq := 0
  splitStage := .preSplitFlushDone
  compacting := true
  initialFlushed := true
  estimatedSize := 0
  l0 := []
  cfs := [emptyCf2, emptyCf2, emptyCf2]

/-! ## Claim C5 -/

/-- C5: for every change-set whose sequence is not strictly greater than
the shard's applied sequence, with the shard found, the version matching
and the pre-fetch passing, `apply_change_set` returns success with the
shard completely unchanged, performing no action besides the prefetch
requests — so re-applying an already applied change-set is an idempotent
no-op. -/
theorem c5_duplicate_sequence_noop {env : Env} {shards : List Shard}
    {cs : ChangeSet} {shard : Shard}
    (hpre : pre_load_files env cs = none)
    (hget : get_shard shards cs.shardId = some shard)
    (hver : shard.ver = cs.shardVer)
    (hseq : cs.sequence ≤ shard.metaSeq) :
    apply_change_set env shards cs =
      .ok shard ((pre_load_ids cs).map Action.prefetch) := by
  simp only [apply_change_set, hpre, hget]
  rw [if_neg (fun hne => hne hver), if_pos hseq]

def c5wShard : Shard := { wShardBase with metaSeq := 5 }

def c5wCs : ChangeSet where
  shardId := 1
  shardVer := 1
  sequence := 3
  stage := .preSplitFlushDone
  flush := none
  compaction := some
    { cf := 0, level := 0, conflicted := false
      tableCreates := [⟨60, 0, 1⟩], topDeletes := [], bottomDeletes := [] }
  splitFiles := none
  snapshot := none

theorem c5_duplicate_sequence_noop_witness :
    c5wCs.sequence ≤ c5wShard.metaSeq ∧
    apply_change_set wEnv [c5wShard] c5wCs =
      .ok c5wShard ((pre_load_ids c5wCs).map Action.prefetch) :=
  ⟨by decide,
    c5_duplicate_sequence_noop (by decide) (by decide) rfl (by decide)⟩

/-! ## Claim C1 -/

/-- C1 (amended): applying a Split-Files change-set that passes shard,
version and sequence validation while the split stage is not
`PreSplitFlushDone` returns the wrong-stage error without structural
change — the L0 list, every column-family snapshot and the split stage are
unchanged — but the applied-sequence counter has already been advanced to
the change-set's sequence before the dispatch. -/
theorem c1_wrong_stage_seq_advanced {env : Env} {shards : List Shard}
    {cs : ChangeSet} {shard : Shard} {sf : SplitFilesMsg}
    (hpre : pre_load_files env cs = none)
    (hget : get_shard shards cs.shardId = some shard)
    (hver : shard.ver = cs.shardVer)
    (hseq : shard.metaSeq < cs.sequence)
    (hfl : cs.flush = none) (hcomp : cs.compaction = none)
    (hsf : cs.splitFiles = some sf)
    (hstage : shard.splitStage ≠ SplitStage.preSplitFlushDone) :
    apply_change_set env shards cs =
      .err .wrongSplitStage (some { shard with metaSeq := cs.sequence })
        ((pre_load_ids cs).map Action.prefetch) ∧
    ({ shard with metaSeq := cs.sequence }).l0 = shard.l0 ∧
    ({ shard with metaSeq := cs.sequence }).cfs = shard.cfs ∧
    ({ shard with metaSeq := cs.sequence }).splitStage = shard.splitStage ∧
    ({ shard with metaSeq := cs.sequence }).metaSeq = cs.sequence := by
  refine ⟨?_, rfl, rfl, rfl, rfl⟩
  rw [apply_change_set_validated hpre hget hver hseq]
  simp only [dispatch_payload, hfl, hcomp, hsf]
  have hstage1 : ({ shard with metaSeq := cs.sequence } : Shard).splitStage ≠
      SplitStage.preSplitFlushDone := hstage
  rw [apply_split_files_wrong_stage hstage1]
  simp

def c1Shard : Shard := { wShardBase with splitStage := .initial }

def c1Cs : ChangeSet where
  shardId := 1
  shardVer := 1
  sequence := 1
  stage := .splitFileDone
  flush := none
  compaction := none
  splitFiles := some { l0Creates := [], tableCreates := [], tableDeletes := [] }
  snapshot := none

/-- C1 is false as stated: at this input the wrong-stage error is returned
with the listed structures untouched, yet the applied-sequence counter has
moved from 0 to 1. -/
theorem c1_counterexample :
    apply_change_set wEnv [c1Shard] c1Cs =
      .err .wrongSplitStage (some { c1Shard with metaSeq := 1 }) [] ∧
    c1Shard.metaSeq = 0 ∧ ({ c1Shard with metaSeq := 1 }).metaSeq ≠ 0 := by
  refine ⟨by decide, rfl, by decide⟩

theorem c1_wrong_stage_witness :
    apply_change_set wEnv [c1Shard] c1Cs =
      .err .wrongSplitStage (some { c1Shard with metaSeq := c1Cs.sequence })
        ((pre_load_ids c1Cs).map Action.prefetch) ∧
    ({ c1Shard with metaSeq := c1Cs.sequence }).l0 = c1Shard.l0 ∧
    ({ c1Shard with metaSeq := c1Cs.sequence }).cfs = c1Shard.cfs ∧
    ({ c1Shard with metaSeq := c1Cs.sequence }).splitStage =
      c1Shard.splitStage ∧
    ({ c1Shard with metaSeq := c1Cs.sequence }).metaSeq = c1Cs.sequence :=
  c1_wrong_stage_seq_advanced (by decide) (by decide) rfl (by decide) rfl rfl
    rfl (by decide)

/-! ## Claim C7 -/

/-- C7: a conflicted compaction never touches the shard: if it is a
move-down the whole application is a no-op with no action at all;
otherwise the application still leaves the shard untouched and schedules
exactly one deferred removal containing every created table id. -/
theorem c7_conflicted_compaction {env : Env} {shard : Shard}
    {comp : CompactionMsg} (hc : comp.conflicted = true) :
    (is_move_down comp = true →
      apply_compaction env shard comp = .ok shard []) ∧
    (is_move_down comp = false →
      apply_compaction env shard comp =
        .ok shard [remove_dfs_files
          (comp.tableCreates.foldl (fun s c => insertSet s c.id) [])] ∧
      ∀ c ∈ comp.tableCreates,
        c.id ∈ comp.tableCreates.foldl (fun s c => insertSet s c.id) []) := by
  constructor
  · intro hmv
    simp [apply_compaction, hc, hmv]
  · intro hmv
    refine ⟨by simp [apply_compaction, hc, hmv], ?_⟩
    intro c hcm
    exact mem_foldl_insertSet hcm []

def c7Comp : CompactionMsg where
  cf := 0
  level := 1
  conflicted := true
  tableCreates := [⟨5, 0, 2⟩]
  topDeletes := []
  bottomDeletes := []

theorem c7_conflicted_compaction_witness :
    apply_compaction wEnv wShardBase c7Comp =
      .ok wShardBase [remove_dfs_files
        (c7Comp.tableCreates.foldl (fun s c => insertSet s c.id) [])] :=
  ((c7_conflicted_compaction rfl).2 (by decide)).1

/-! ## Claim C6 -/

/-- C6: in a non-conflicted compaction with `level > 0`, a table id that
appears among the creates is excluded from the accumulated deletion set
before the deferred removal is scheduled, so a relocated table is never
scheduled for physical deletion. -/
theorem c6_relocated_id_never_deleted {env : Env} {shard : Shard}
    {comp : CompactionMsg} {s' : Shard} {acts : List Action} {id : Nat}
    {ds : List Nat}
    (hc : comp.conflicted = false) (hl : comp.level ≠ 0)
    (h : apply_compaction env shard comp = .ok s' acts)
    (hid : id ∈ comp.tableCreates.map (fun c => c.id))
    (hds : Action.removeDeferred ds ∈ acts) :
    id ∉ ds := by
  obtain ⟨d2, ha⟩ := apply_compaction_ln_shape hc hl h
  rw [ha] at hds
  simp only [remove_dfs_files, List.mem_singleton] at hds
  injection hds with h1
  obtain ⟨c, hcm, hcid⟩ := List.mem_map.mp hid
  rw [h1, ← hcid]
  exact not_mem_foldl_removeSet hcm d2

def c6Shard : Shard :=
  { wShardBase with
      cfs := [⟨[⟨[⟨8, [8], [8, 255], 10⟩], 10⟩, ⟨[], 0⟩]⟩, emptyCf2,
        emptyCf2] }

def c6Comp : CompactionMsg where
  cf := 0
  level := 1
  conflicted := false
  tableCreates := [⟨8, 0, 2⟩]
  topDeletes := [8]
  bottomDeletes := []

def c6Res : HOut := apply_compaction wEnv c6Shard c6Comp

def c6ResS : Shard :=
  match c6Res with
  | .ok s _ => s
  | _ => c6Shard

def c6ResActs : List Action :=
  match c6Res with
  | .ok _ a => a
  | _ => []

theorem c6_relocated_id_never_deleted_witness : (8 : Nat) ∉ ([] : List Nat) :=
  @c6_relocated_id_never_deleted wEnv c6Shard c6Comp c6ResS c6ResActs 8 []
    rfl (by decide) rfl (by decide) (by decide)

/-! ## Claim C9 -/

/-- C9: for every compaction change-set that passes validation, the outcome
— success or propagated handler error alike — carries a shard whose
compacting flag has been cleared and whose applied sequence is the one
recorded before the dispatch. -/
theorem c9_compaction_flag_and_sequence {env : Env} {shards : List Shard}
    {cs : ChangeSet} {shard : Shard} {comp : CompactionMsg}
    (hpre : pre_load_files env cs = none)
    (hget : get_shard shards cs.shardId = some shard)
    (hver : shard.ver = cs.shardVer)
    (hseq : shard.metaSeq < cs.sequence)
    (hfl : cs.flush = none) (hcomp : cs.compaction = some comp) :
    (∀ s' acts, apply_change_set env shards cs = .ok s' acts →
      s'.compacting = false ∧ s'.metaSeq = cs.sequence) ∧
    (∀ e s' acts, apply_change_set env shards cs = .err e (some s') acts →
      s'.compacting = false ∧ s'.metaSeq = cs.sequence) := by
  rw [apply_change_set_validated hpre hget hver hseq]
  simp only [dispatch_payload, hfl, hcomp]
  constructor
  · intro s' acts h
    split at h
    · rename_i s a hap
      injection h with h1 h2
      rw [← h1]
      exact ⟨rfl, (apply_compaction_ok_scalars hap).1⟩
    · exact Outcome.noConfusion h
    · exact Outcome.noConfusion h
  · intro e s' acts h
    split at h
    · exact Outcome.noConfusion h
    · rename_i e1 s a hap
      injection h with h1 h2 h3
      injection h2 with h2
      rw [← h2]
      exact ⟨rfl, (apply_compaction_err_scalars hap).1⟩
    · exact Outcome.noConfusion h

def c9Env : Env := { wEnv with avail := fun id => !(id == 9) }

def c9Comp : CompactionMsg where
  cf := 0
  level := 1
  conflicted := false
  tableCreates := [⟨9, 0, 2⟩]
  topDeletes := [9]
  bottomDeletes := []

def c9Cs : ChangeSet where
  shardId := 1
  shardVer := 1
  sequence := 1
  stage := .preSplitFlushDone
  flush := none
  compaction := some c9Comp
  splitFiles := none
  snapshot := none

def c9ResS : Shard := { wShardBase with metaSeq := 1, compacting := false }

theorem c9_compaction_flag_and_sequence_witness :
    c9ResS.compacting = false ∧ c9ResS.metaSeq = c9Cs.sequence :=
  (@c9_compaction_flag_and_sequence c9Env [wShardBase] c9Cs wShardBase c9Comp
      (by decide) (by decide) rfl (by decide) rfl rfl).2
    (.io 9) c9ResS ((pre_load_ids c9Cs).map Action.prefetch) (by decide)

/-! ## Claim C10 -/

/-- C10: a change-set carrying only a Snapshot payload that passes
validation succeeds, records the new sequence, prefetches every file the
snapshot references, and leaves the L0 list and every column-family
snapshot unchanged. -/
theorem c10_snapshot_records_sequence_only {env : Env} {shards : List Shard}
    {cs : ChangeSet} {shard : Shard} {snap : SnapshotMsg}
    (hpre : pre_load_files env cs = none)
    (hget : get_shard shards cs.shardId = some shard)
    (hver : shard.ver = cs.shardVer)
    (hseq : shard.metaSeq < cs.sequence)
    (hfl : cs.flush = none) (hcomp : cs.compaction = none)
    (hsf : cs.splitFiles = none) (hsnap : cs.snapshot = some snap) :
    apply_change_set env shards cs =
      .ok (refresh_estimated_size { shard with metaSeq := cs.sequence })
        ((pre_load_ids cs).map Action.prefetch) ∧
    (refresh_estimated_size { shard with metaSeq := cs.sequence }).l0 =
      shard.l0 ∧
    (refresh_estimated_size { shard with metaSeq := cs.sequence }).cfs =
      shard.cfs ∧
    (refresh_estimated_size { shard with metaSeq := cs.sequence }).metaSeq =
      cs.sequence ∧
    ∀ id ∈ snap.l0Creates ++ snap.tableCreates.map (fun c => c.id),
      Action.prefetch id ∈ (pre_load_ids cs).map Action.prefetch := by
  refine ⟨?_, rfl, rfl, rfl, ?_⟩
  · rw [apply_change_set_validated hpre hget hver hseq]
    simp only [dispatch_payload, hfl, hcomp, hsf]
  · intro id hid
    apply List.mem_map_of_mem
    have hids : pre_load_ids cs =
        snap.l0Creates ++ snap.tableCreates.map (fun c => c.id) := by
      simp [pre_load_ids, hfl, hcomp, hsf, hsnap]
    rw [hids]
    exact hid

def c10Cs : ChangeSet where
  shardId := 1
  shardVer := 1
  sequence := 1
  stage := .preSplitFlushDone
  flush := none
  compaction := none
  splitFiles := none
  snapshot := some { l0Creates := [100], tableCreates := [⟨101, 0, 1⟩] }

theorem c10_snapshot_records_sequence_only_witness :
    apply_change_set wEnv [wShardBase] c10Cs =
      .ok (refresh_estimated_size { wShardBase with metaSeq := c10Cs.sequence })
        ((pre_load_ids c10Cs).map Action.prefetch) ∧
    Action.prefetch 100 ∈ (pre_load_ids c10Cs).map Action.prefetch :=
  ⟨(@c10_snapshot_records_sequence_only wEnv [wShardBase] c10Cs wShardBase
      ⟨[100], [⟨101, 0, 1⟩]⟩ (by decide) (by decide) rfl (by decide)
      rfl rfl rfl rfl).1,
    (@c10_snapshot_records_sequence_only wEnv [wShardBase] c10Cs wShardBase
      ⟨[100], [⟨101, 0, 1⟩]⟩ (by decide) (by decide) rfl (by decide)
      rfl rfl rfl rfl).2.2.2.2 100 (by decide)⟩

/-! ## Claim C3 -/

/-- C3 (amended): in Split-Files application the per-column-family CAS
result is ignored, not fatal: if the CAS for column family `c` fails, the
application can still return success, and that column family keeps its old
snapshot instead of the newly assembled one. -/
theorem c3_split_cf_cas_failure_ignored {env : Env} {shard : Shard}
    {sf : SplitFilesMsg} {stage : SplitStage} {s' : Shard}
    {acts : List Action} {c : Nat}
    (hcas : env.casOk (c + 1) = false)
    (h : apply_split_files env shard sf stage = .ok s' acts) :
    getCf s' c = getCf shard c := by
  obtain ⟨newCfs, h1⟩ := apply_split_files_ok_shape h
  rw [h1]
  exact installSplitLoop_getCf_casFail hcas (List.range NUM_CFS)
    ({ shard with
        l0 := sortL0 (sf.l0Creates.map (mkL0 env) ++
          shard.l0.filter (fun t => !sf.tableDeletes.contains t.id)) }, [])

def c3Env : Env := { wEnv with casOk := fun n => n == 0 }

def c3Sf : SplitFilesMsg where
  l0Creates := []
  tableCreates := [⟨9, 0, 1⟩]
  tableDeletes := []

def c3Res : HOut := apply_split_files c3Env wShardBase c3Sf .splitFileDone

def c3ResS : Shard :=
  match c3Res with
  | .ok s _ => s
  | _ => wShardBase

def c3ResActs : List Action :=
  match c3Res with
  | .ok _ a => a
  | _ => []

/-- C3 is false as stated: with every per-cf CAS failing (only slot 0
succeeds), split-files application neither aborts nor errors — it returns
success and keeps column family 0's old empty snapshot, silently dropping
the assembled snapshot that contains newly created table 9. -/
theorem c3_counterexample :
    c3Env.casOk 1 = false ∧
    apply_split_files c3Env wShardBase c3Sf .splitFileDone =
      .ok c3ResS c3ResActs ∧
    levelTables c3ResS 0 1 = [] ∧
    c3Sf.tableCreates = [⟨9, 0, 1⟩] :=
  ⟨rfl, rfl, by decide, rfl⟩

theorem c3_split_cf_cas_failure_ignored_witness :
    getCf c3ResS 0 = getCf wShardBase 0 :=
  @c3_split_cf_cas_failure_ignored c3Env wShardBase c3Sf .splitFileDone
    c3ResS c3ResActs 0 rfl rfl

/-! ## Claim C4 -/

theorem tablePairOk_spec {a b : SSTable} (h : tablePairOk a b = true) :
    bytesLe a.smallest a.biggest = true ∧
      bytesLt a.smallest b.smallest = true ∧
      bytesLt a.biggest b.biggest = true := by
  simpa [tablePairOk, Bool.and_eq_true, and_assoc] using h

/-- C4 (amended): every Level Handler installed by the generic level-update
procedure either leaves the level's published tables unchanged or installs
a list in which, for every adjacent pair, the smallest keys strictly
increase, the biggest keys strictly increase, and the left table is
well-formed (its smallest key is at most its biggest key).  The order
assertion checks exactly this; it does not check
`ti.biggest < tj.smallest`, so adjacent tables may overlap. -/
theorem c4_installed_level_invariant {env : Env} {shard : Shard}
    {cf level : Nat} {creates : List TableCreate} {delIds delFiles : List Nat}
    {s' : Shard} {d' : List Nat}
    (h : compaction_update_level_handler env shard cf level creates delIds
        delFiles = .ok s' d') :
    levelTables s' cf level = levelTables shard cf level ∨
    (List.Chain' (fun a b => bytesLt a.smallest b.smallest = true)
        (levelTables s' cf level) ∧
      List.Chain' (fun a b => bytesLt a.biggest b.biggest = true)
        (levelTables s' cf level) ∧
      List.Chain' (fun a b => bytesLe a.smallest a.biggest = true)
        (levelTables s' cf level)) := by
  rcases cul_ok_shape h with ⟨h1, _, _, _⟩ | ⟨_, nl, hnl, hord, h1⟩
  · left
    rw [h1]
  · by_cases hcf : cf < shard.cfs.length
    · by_cases hlvl : level - 1 < (getCf shard cf).levels.length
      · right
        have hlvl' : level - 1 < (shard.cfs.getD cf ⟨[]⟩).levels.length := hlvl
        have e1 : levelTables s' cf level = nl.tables := by
          rw [h1]
          simp only [levelTables, getCf]
          rw [getD_set_self _ _ _ _ hcf]
          dsimp only
          rw [getD_set_self _ _ _ _ hlvl']
        rw [e1]
        have hch := assert_tables_order_chain hord
        exact ⟨hch.imp (fun a b hp => (tablePairOk_spec hp).2.1),
          hch.imp (fun a b hp => (tablePairOk_spec hp).2.2),
          hch.imp (fun a b hp => (tablePairOk_spec hp).1)⟩
      · left
        have hlvl2 : (shard.cfs.getD cf ⟨[]⟩).levels.length ≤ level - 1 :=
          Nat.le_of_not_lt hlvl
        rw [h1]
        simp only [levelTables, getCf]
        rw [getD_set_self _ _ _ _ hcf]
        dsimp only
        rw [List.set_eq_of_length_le hlvl2]
    · left
      rw [h1]
      simp only [levelTables, getCf]
      rw [List.set_eq_of_length_le (Nat.le_of_not_lt hcf)]

def c4Env : Env :=
  { wEnv with
      smallest := fun id => if id == 1 then [1] else [3]
      biggest := fun id => if id == 1 then [5] else [8] }

def c4Creates : List TableCreate := [⟨1, 0, 1⟩, ⟨2, 0, 1⟩]

def c4Res : CUL :=
  compaction_update_level_handler c4Env wShardBase 0 1 c4Creates [] []

def c4ResS : Shard :=
  match c4Res with
  | .ok s _ => s
  | _ => wShardBase

def c4ResD : List Nat :=
  match c4Res with
  | .ok _ d => d
  | _ => []

/-- C4 is false as stated: the level updater installs the handler
`[1..5], [3..8]` — the order assertion passes although the first table's
biggest key is not below the second table's smallest key, so the installed
sequence is not non-overlapping. -/
theorem c4_counterexample :
    compaction_update_level_handler c4Env wShardBase 0 1 c4Creates [] [] =
      .ok c4ResS c4ResD ∧
    levelTables c4ResS 0 1 = [⟨1, [1], [5], 10⟩, ⟨2, [3], [8], 10⟩] ∧
    bytesLt (⟨1, [1], [5], 10⟩ : SSTable).biggest
      (⟨2, [3], [8], 10⟩ : SSTable).smallest = false :=
  ⟨rfl, by decide, by decide⟩

theorem c4_installed_level_invariant_witness :
    levelTables c4ResS 0 1 = levelTables wShardBase 0 1 ∨
    (List.Chain' (fun a b => bytesLt a.smallest b.smallest = true)
        (levelTables c4ResS 0 1) ∧
      List.Chain' (fun a b => bytesLt a.biggest b.biggest = true)
        (levelTables c4ResS 0 1) ∧
      List.Chain' (fun a b => bytesLe a.smallest a.biggest = true)
        (levelTables c4ResS 0 1)) :=
  @c4_installed_level_invariant c4Env wShardBase 0 1 c4Creates [] [] c4ResS
    c4ResD rfl

/-! ## Claim C8 -/

/-- C8: a successful non-conflicted level-0 compaction consuming
`k = |top_deletes|` top tables shrinks the L0 list by exactly `k` entries
(the consumed prefix), and for every column family level 1 becomes exactly
— as a multiset, the list being re-sorted on publish — the creates routed
to that cf plus the old level-1 tables whose ids are not among the bottom
deletes. -/
theorem c8_l0_compaction_shape {env : Env} {shard : Shard}
    {comp : CompactionMsg} {s' : Shard} {acts : List Action}
    (hc : comp.conflicted = false) (hl : comp.level = 0)
    (hcfs : shard.cfs.length = NUM_CFS)
    (hlvl : ∀ cf, cf < NUM_CFS → 0 < (getCf shard cf).levels.length)
    (hk : comp.topDeletes.length ≤ shard.l0.length)
    (h : apply_compaction env shard comp = .ok s' acts) :
    s'.l0 = shard.l0.drop comp.topDeletes.length ∧
    s'.l0.length = shard.l0.length - comp.topDeletes.length ∧
    ∀ cf, cf < NUM_CFS →
      (levelTables s' cf 1).Perm
        ((comp.tableCreates.filter (fun c => c.cf == cf)).map
            (fun c => mkSST env c.id) ++
          (levelTables shard cf 1).filter
            (fun t => !comp.bottomDeletes.contains t.id)) := by
  obtain ⟨s1, d, hup, hs, ha⟩ := apply_compaction_l0_shape hc hl h
  have hfr := updateCfs_ok_frame hup
  have hl0 : s1.l0 = shard.l0 := by rw [hfr]
  have h1 : s'.l0 = shard.l0.drop comp.topDeletes.length := by
    rw [hs]
    simp only [atomic_remove_l0_tables]
    rw [hl0]
  refine ⟨h1, ?_, ?_⟩
  · rw [h1, List.length_drop]
  · intro cf hcf
    have hperm := updateCfs_ok_perm (List.nodup_range NUM_CFS) hup cf
      (List.mem_range.mpr hcf) (by rw [hcfs]; exact hcf) (hlvl cf hcf)
    have hlt : levelTables s' cf 1 = levelTables s1 cf 1 := by
      rw [hs]
      exact rfl
    rw [hlt]
    exact hperm

def c8Shard : Shard := { wShardBase with l0 := [⟨50, 2, 10⟩, ⟨51, 1, 10⟩] }

def c8Comp : CompactionMsg where
  cf := 0
  level := 0
  conflicted := false
  tableCreates := [⟨60, 0, 1⟩]
  topDeletes := [50, 51]
  bottomDeletes := []

def c8Res : HOut := apply_compaction wEnv c8Shard c8Comp

def c8ResS : Shard :=
  match c8Res with
  | .ok s _ => s
  | _ => c8Shard

def c8ResActs : List Action :=
  match c8Res with
  | .ok _ a => a
  | _ => []

theorem c8_l0_compaction_shape_witness :
    c8ResS.l0 = c8Shard.l0.drop c8Comp.topDeletes.length ∧
    (levelTables c8ResS 0 1).Perm
      ((c8Comp.tableCreates.filter (fun c => c.cf == 0)).map
          (fun c => mkSST wEnv c.id) ++
        (levelTables c8Shard 0 1).filter
          (fun t => !c8Comp.bottomDeletes.contains t.id)) :=
  ⟨(@c8_l0_compaction_shape wEnv c8Shard c8Comp c8ResS c8ResActs rfl rfl
      (by decide) (by decide) (by decide) rfl).1,
    (@c8_l0_compaction_shape wEnv c8Shard c8Comp c8ResS c8ResActs rfl rfl
      (by decide) (by decide) (by decide) rfl).2.2 0 (by decide)⟩

/-! ## Claim C2 -/

def c2Shard : Shard := { wShardBase with l0 := [⟨7, 5, 10⟩] }

def c2Sf : SplitFilesMsg where
  l0Creates := []
  tableCreates := []
  tableDeletes := [7]

def c2Res : HOut := apply_split_files wEnv c2Shard c2Sf .splitFileDone

def c2ResS : Shard :=
  match c2Res with
  | .ok s _ => s
  | _ => c2Shard

def c2ResActs : List Action :=
  match c2Res with
  | .ok _ a => a
  | _ => []

/-- C2 fails on the code: applying this Split-Files change-set removes old
L0 table 7's backing file synchronously (a direct `fs.remove` issued
during the apply, before the L0 slot is even swapped) and registers no
deferred removal at all — unlike the compaction path, whose removals go
through `remove_dfs_files` and are deferred past the reclamation
barrier. -/
theorem c2_split_removal_is_synchronous :
    apply_split_files wEnv c2Shard c2Sf .splitFileDone =
      .ok c2ResS c2ResActs ∧
    c2ResActs = [Action.removeNow 7] ∧
    c2ResActs.all
      (fun a =>
        match a with
        | .removeDeferred _ => false
        | _ => true) = true :=
  ⟨rfl, by decide, by decide⟩

end KV
